import Mathlib

/-!
Shallow embedding of `hpc_helper/_hpc_helper.py` (mad-lab-fau/hpc-helper):
command-string construction and validation for Torque and Slurm job
submission, plus the `hpc_status` sentinel-file check.

Python strings are modelled as Lean `String`; Python `str.strip()` as
`pyStrip` (drop Unicode whitespace from both ends), `s[:-1]` / `s[:-2]` as
`pyDropRight1` / `pyDropRight2`, substring tests (`x in y`) as
`strContains`, and `int(...)` as `pyIntParse`.  Exceptions are modelled
with `Except`: the `AttributeError` raised for an unsupported
scheduler/target pair is `HpcError.unsupportedScheduler` (the spec's
`UnsupportedSchedulerError`) and the `AssertionError` of the
partition/gres cross-check is `HpcError.invalidConfiguration` (the
spec's `InvalidConfigurationError`).  Python `**kwargs` is an ordered
association list `List (String × String)`.
-/

/-- The characters Python's `str.strip()` removes: exactly those with
`str.isspace()` true — ASCII whitespace (tab, LF, VT, FF, CR, space),
the separator controls U+001C–U+001F, NEL (U+0085), NO-BREAK SPACE
(U+00A0), OGHAM SPACE MARK (U+1680), the Unicode space separators
U+2000–U+200A, U+202F, U+205F and U+3000, and the line/paragraph
separators U+2028/U+2029. -/
def isPyWS (c : Char) : Bool :=
  c = ' ' || c = '\t' || c = '\n' || c = '\r' || c = Char.ofNat 11 || c = Char.ofNat 12 ||
    (Char.ofNat 28 ≤ c && c ≤ Char.ofNat 31) || c = Char.ofNat 0x85 || c = Char.ofNat 0xA0 ||
    c = Char.ofNat 0x1680 || (Char.ofNat 0x2000 ≤ c && c ≤ Char.ofNat 0x200A) ||
    c = Char.ofNat 0x2028 || c = Char.ofNat 0x2029 || c = Char.ofNat 0x202F ||
    c = Char.ofNat 0x205F || c = Char.ofNat 0x3000

/-- `str.strip()` on the underlying character list: drop whitespace from
both ends (right end first; the order of the two passes is immaterial). -/
def pyStripChars (l : List Char) : List Char :=
  (l.rdropWhile isPyWS).dropWhile isPyWS

/-- Python `s.strip()`. -/
def pyStrip (s : String) : String :=
  ⟨pyStripChars s.data⟩

/-- Python `s[:-1]`. -/
def pyDropRight1 (s : String) : String :=
  ⟨s.data.dropLast⟩

/-- Python `s[:-2]`. -/
def pyDropRight2 (s : String) : String :=
  ⟨s.data.dropLast.dropLast⟩

/-- Whether `needle` occurs as a contiguous sublist of `haystack`. -/
def listInfix : List Char → List Char → Bool
  | needle, [] => needle.isEmpty
  | needle, h :: t => needle.isPrefixOf (h :: t) || listInfix needle t

/-- Python `needle in haystack` on strings (substring containment). -/
def strContains (haystack needle : String) : Bool :=
  listInfix needle.data haystack.data

/-- Python `s.startswith(pre)`. -/
def strStartsWith (s pre : String) : Bool :=
  pre.data.isPrefixOf s.data

/-- Whether some occurrence of `first` in the list is followed (at or
after its end) by an occurrence of `second`.  Used to state the spec's
placement claims (which fragment comes before which) about the built
command strings. -/
def listContainsAfter (first second : List Char) : List Char → Bool
  | [] => false
  | h :: t =>
    (first.isPrefixOf (h :: t) && listInfix second ((h :: t).drop first.length)) ||
      listContainsAfter first second t

/-- `strContainsAfter cmd first second`: some occurrence of `first` in
`cmd` is followed by an occurrence of `second`. -/
def strContainsAfter (cmd first second : String) : Bool :=
  listContainsAfter first.data second.data cmd.data

/-- The `TARGET_SYSTEM` literal: `["woody", "tinygpu", "tinyfat", "emmy", "meggie"]`. -/
inductive TargetSystem
  | woody
  | tinygpu
  | tinyfat
  | emmy
  | meggie
deriving DecidableEq, BEq

/-- The string naming each target system, as it appears in error messages. -/
def TargetSystem.name : TargetSystem → String
  | .woody => "woody"
  | .tinygpu => "tinygpu"
  | .tinyfat => "tinyfat"
  | .emmy => "emmy"
  | .meggie => "meggie"

/-- Errors raised by the builders: `unsupportedScheduler` models the
`AttributeError` of `_check_command_for_target_system` (it records the
scheduler name and the target-system name from the message text);
`invalidConfiguration` models the `AssertionError` of
`_check_partition_slurm`. -/
inductive HpcError
  | unsupportedScheduler (scheduler target : String)
  | invalidConfiguration
deriving DecidableEq, BEq

/-- `_check_command_for_target_system(command, target_system)`:
rejects Torque commands (prefix `"q"`) on `meggie`/`tinyfat` and Slurm
commands (prefix `"s"`) on `woody`; appends `".tinygpu"` for `tinygpu`. -/
def _check_command_for_target_system (command : String) (target_system : TargetSystem) :
    Except HpcError String :=
  if strStartsWith command "q" && [TargetSystem.meggie, TargetSystem.tinyfat].contains target_system then
    .error (.unsupportedScheduler "torque" target_system.name)
  else if strStartsWith command "s" && [TargetSystem.woody].contains target_system then
    .error (.unsupportedScheduler "slurm" target_system.name)
  else
    .ok (if target_system == TargetSystem.tinygpu then command ++ ".tinygpu" else command)

/-- `_check_partition_slurm(partition, gres)`: for partitions `"v100"` and
`"a100"`, `assert partition in gres`. -/
def _check_partition_slurm (partition gres : String) : Except HpcError Unit :=
  if ["v100", "a100"].contains partition then
    if strContains gres partition then .ok () else .error .invalidConfiguration
  else
    .ok ()

/-- `_add_arguments_torque(command_str, args, **kwargs)`. -/
def _add_arguments_torque (command_str : String) (args : Option (List String))
    (kwargs : List (String × String)) : String :=
  if kwargs.length ≠ 0 ∨ args ≠ none then
    let c := command_str ++ "-v "
    let c :=
      match args with
      | some l =>
        let c := c ++ "PARAMS=\""
        let c := l.foldl (fun acc arg => acc ++ arg ++ " ") c
        let c := pyStrip c
        c ++ "\" "
      | none => c
    let c :=
      if kwargs.length ≠ 0 then
        pyDropRight1 (kwargs.foldl (fun acc kv => acc ++ kv.1 ++ "=" ++ kv.2 ++ ",") c)
      else c
    pyStrip c
  else
    pyStrip command_str

/-- `_add_arguments_slurm(command_str, args, **kwargs)`. -/
def _add_arguments_slurm (command_str : String) (args : Option (List String))
    (kwargs : List (String × String)) : String :=
  if kwargs.length ≠ 0 ∨ args ≠ none then
    let c := command_str ++ "--export="
    let c :=
      match args with
      | some l =>
        let c := c ++ "PARAMS=\""
        let c := l.foldl (fun acc arg => acc ++ arg ++ " ") c
        let c := pyStrip c ++ "\""
        if kwargs.length ≠ 0 then c ++ "," else c
      | none => c
    let c :=
      if kwargs.length ≠ 0 then
        pyDropRight2 (kwargs.foldl (fun acc kv => acc ++ kv.1 ++ "=\"" ++ kv.2 ++ "\"," ) c) ++ "\""
      else c
    pyStrip c
  else
    pyStrip command_str

/-- `build_job_submit_torque(job_name, script_name, target_system, nodes, ppn,
walltime, args, **kwargs)`.  The `DeprecationWarning` for `tinygpu` is a
non-fatal side effect and is not modelled. -/
def build_job_submit_torque (job_name script_name : String) (target_system : TargetSystem)
    (nodes ppn : Nat) (walltime : String) (args : Option (List String))
    (kwargs : List (String × String)) : Except HpcError String :=
  match _check_command_for_target_system "qsub" target_system with
  | .error e => .error e
  | .ok qsub =>
    let qsub_command := qsub ++ " -N " ++ job_name ++ " -l nodes=" ++ toString nodes ++
      ":ppn=" ++ toString ppn ++ ",walltime=" ++ walltime ++ " -m abe "
    let qsub_command := _add_arguments_torque qsub_command args kwargs
    .ok (qsub_command ++ " " ++ script_name)

/-- `build_job_submit_slurm(job_name, script_name, target_system, nodes,
tasks_per_node, gres, partition, walltime, mail_type, args, **kwargs)`. -/
def build_job_submit_slurm (job_name script_name : String) (target_system : TargetSystem)
    (nodes tasks_per_node : Nat) (gres : String) (partition : Option String)
    (walltime mail_type : String) (args : Option (List String))
    (kwargs : List (String × String)) : Except HpcError String :=
  match _check_command_for_target_system "sbatch" target_system with
  | .error e => .error e
  | .ok sbatch =>
    let c := sbatch ++ " --job-name " ++ job_name ++ " "
    let c :=
      if target_system != TargetSystem.tinygpu then
        c ++ "--nodes=" ++ toString nodes ++ " --ntasks-per-node=" ++ toString tasks_per_node ++ " "
      else c
    let partStep : Except HpcError String :=
      if target_system == TargetSystem.tinygpu then
        match partition with
        | some p =>
          match _check_partition_slurm p gres with
          | .error e => .error e
          | .ok _ => .ok (c ++ "--partition=" ++ p ++ " ")
        | none => .ok c
      else .ok c
    match partStep with
    | .error e => .error e
    | .ok c =>
      let c := if target_system == TargetSystem.tinygpu then c ++ "--gres=" ++ gres ++ " " else c
      let c := c ++ "--time=" ++ walltime ++ " --mail-type=" ++ mail_type ++ " "
      let c := _add_arguments_slurm c args kwargs
      .ok (c ++ " " ++ script_name)

/-- Errors a Python builtin may raise; `valueError` is what `int(...)`
raises on a non-numeric string. -/
inductive PyError
  | valueError
deriving DecidableEq

/-- Digits of a Python integer literal after the first digit: digits with
single underscores allowed between digits. -/
def pyIntDigitsAux : Nat → List Char → Option Nat
  | acc, [] => some acc
  | acc, '_' :: c :: rest =>
    if c.isDigit then pyIntDigitsAux (acc * 10 + (c.toNat - 48)) rest else none
  | _, ['_'] => none
  | acc, c :: rest =>
    if c.isDigit then pyIntDigitsAux (acc * 10 + (c.toNat - 48)) rest else none

/-- A nonempty digit run (with Python's underscore grouping). -/
def pyIntDigits : List Char → Option Nat
  | [] => none
  | c :: rest => if c.isDigit then pyIntDigitsAux (c.toNat - 48) rest else none

/-- Python `int(s)` for a base-10 string: strip whitespace, optional sign,
then digits (underscore grouping allowed); `none` models `ValueError`. -/
def pyIntParse (s : String) : Option Int :=
  match pyStripChars s.data with
  | '+' :: rest => (pyIntDigits rest).map Int.ofNat
  | '-' :: rest => (pyIntDigits rest).map (fun n => -(n : Int))
  | rest => (pyIntDigits rest).map Int.ofNat

/-- `check_hpc_status_file(folder_path)`.  The filesystem state is the
content of the folder's `hpc_status` file (`none` when the file does not
exist).  `touch()` creates an empty file when absent; `read_text` then
returns the content; the result is `True` iff the content is nonempty
and `int(content) == 0` (a nonempty non-numeric content raises
`ValueError`).  Returns the new file state together with the outcome. -/
def check_hpc_status_file (hpc_status_file : Option String) :
    Option String × Except PyError Bool :=
  let touched : String :=
    match hpc_status_file with
    | none => ""
    | some c => c
  let exit_status := touched
  let result : Except PyError Bool :=
    if exit_status.length > 0 then
      match pyIntParse exit_status with
      | some n => if n = 0 then .ok true else .ok false
      | none => .error .valueError
    else
      .ok false
  (some touched, result)

/-!
Specification-side helpers used to characterise the encoder outputs:
joined forms of the positional/named parts, cleanliness predicates
delimiting a decodable input domain, and decoders inverting the encoders
on that domain.
-/

/-- The raw contribution of the positional-argument loop: each argument
followed by one space. -/
def argsJoinRaw (l : List String) : List Char :=
  (l.map (fun a => a.data ++ [' '])).flatten

/-- The space-separated join of the positional arguments (what is left
inside `PARAMS="..."` after the final space is stripped). -/
def argsJoin (l : List String) : List Char :=
  List.intercalate [' '] (l.map String.data)

/-- One Torque named-argument entry: `key=value`. -/
def kwEntryT (kv : String × String) : List Char :=
  kv.1.data ++ '=' :: kv.2.data

/-- The raw contribution of the Torque named-argument loop: each entry
followed by a comma. -/
def kwRawT (k : List (String × String)) : List Char :=
  (k.map (fun kv => kwEntryT kv ++ [','])).flatten

/-- The comma-separated join of the Torque named-argument entries. -/
def kwJoinT (k : List (String × String)) : List Char :=
  List.intercalate [','] (k.map kwEntryT)

/-- One Slurm named-argument entry: `key="value"`. -/
def kwEntryS (kv : String × String) : List Char :=
  kv.1.data ++ '=' :: '"' :: (kv.2.data ++ ['"'])

/-- The raw contribution of the Slurm named-argument loop: each entry
followed by a comma. -/
def kwRawS (k : List (String × String)) : List Char :=
  (k.map (fun kv => kwEntryS kv ++ [','])).flatten

/-- The comma-separated join of the Slurm named-argument entries. -/
def kwJoinS (k : List (String × String)) : List Char :=
  List.intercalate [','] (k.map kwEntryS)

/-- A character allowed in a clean positional argument: no whitespace, no
double quote. -/
def cleanArgChar (c : Char) : Bool :=
  !isPyWS c && c ≠ '"'

/-- A clean positional argument: nonempty, all characters clean. -/
def cleanArg (a : String) : Bool :=
  !(a == "") && a.data.all cleanArgChar

/-- A character allowed in a clean named key or value: no whitespace,
comma, equals sign or double quote. -/
def cleanKVChar (c : Char) : Bool :=
  !isPyWS c && c ≠ ',' && c ≠ '=' && c ≠ '"'

/-- A clean named argument: nonempty key (other than `PARAMS`) and
nonempty value, all characters clean. -/
def cleanKV (kv : String × String) : Bool :=
  !(kv.1 == "") && !(kv.1 == "PARAMS") && !(kv.2 == "") &&
    kv.1.data.all cleanKVChar && kv.2.data.all cleanKVChar

/-- A clean non-empty (positional, named) pair: the positional list, when
present, is nonempty with clean entries; when absent, the named mapping
is nonempty; all named entries are clean. -/
def cleanPair (p : Option (List String) × List (String × String)) : Bool :=
  (match p.1 with
   | some l => !l.isEmpty && l.all cleanArg
   | none => !p.2.isEmpty) && p.2.all cleanKV

/-- Split a Torque `key=value` entry at its first `=`. -/
def parseEqT (piece : List Char) : String × String :=
  (⟨piece.takeWhile (fun c => c != '=')⟩,
   ⟨((piece.dropWhile (fun c => c != '=')).drop 1)⟩)

/-- Split a Slurm `key="value"` entry at its first `=` and strip the
quotes around the value. -/
def parseEqS (piece : List Char) : String × String :=
  (⟨piece.takeWhile (fun c => c != '=')⟩,
   ⟨(((piece.dropWhile (fun c => c != '=')).drop 2).dropLast)⟩)

/-- Decoder for clean Torque fragments: inverts `_add_arguments_torque`
applied to an empty command prefix and a clean pair. -/
def decodeT (f : List Char) : Option (Option (List String) × List (String × String)) :=
  if "-v PARAMS=\"".data.isPrefixOf f then
    let r := f.drop "-v PARAMS=\"".data.length
    let quoted := r.takeWhile (fun c => c != '"')
    let rest := r.dropWhile (fun c => c != '"')
    let l := (quoted.splitOn ' ').map (fun w => (⟨w⟩ : String))
    match rest with
    | ['"'] => some (some l, [])
    | '"' :: ' ' :: kw => some (some l, (kw.splitOn ',').map parseEqT)
    | _ => none
  else if "-v ".data.isPrefixOf f then
    some (none, ((f.drop "-v ".data.length).splitOn ',').map parseEqT)
  else none

/-- Decoder for clean Slurm fragments: inverts `_add_arguments_slurm`
applied to an empty command prefix and a clean pair. -/
def decodeS (f : List Char) : Option (Option (List String) × List (String × String)) :=
  if "--export=PARAMS=\"".data.isPrefixOf f then
    let r := f.drop "--export=PARAMS=\"".data.length
    let quoted := r.takeWhile (fun c => c != '"')
    let rest := r.dropWhile (fun c => c != '"')
    let l := (quoted.splitOn ' ').map (fun w => (⟨w⟩ : String))
    match rest with
    | ['"'] => some (some l, [])
    | '"' :: ',' :: kw => some (some l, (kw.splitOn ',').map parseEqS)
    | _ => none
  else if "--export=".data.isPrefixOf f then
    some (none, ((f.drop "--export=".data.length).splitOn ',').map parseEqS)
  else none

/-!
Basic lemmas about the string model.
-/

theorem strData_append (a b : String) : (a ++ b).data = a.data ++ b.data := by
  cases a
  cases b
  rfl

theorem strData_injective {a b : String} (h : a.data = b.data) : a = b := by
  cases a
  cases b
  cases h
  rfl

/-!
Claim theorems: the simple, directly computable claims.
-/

/-- C1: Calling the Torque builder with job name `"Test_Job"`, script
`"jobscript.sh"`, target `woody`, `nodes=1`, `ppn=4`,
`walltime="24:00:00"`, no positional and no named arguments returns
exactly `"qsub -N Test_Job -l nodes=1:ppn=4,walltime=24:00:00 -m abe jobscript.sh"`. -/
theorem torque_builder_default_woody :
    build_job_submit_torque "Test_Job" "jobscript.sh" .woody 1 4 "24:00:00" none [] =
      .ok "qsub -N Test_Job -l nodes=1:ppn=4,walltime=24:00:00 -m abe jobscript.sh" := rfl

/-- C2: For targets `tinyfat` and `meggie` the Torque builder fails with
the unsupported-scheduler error naming the scheduler (`torque`) and the
target; for every other target it succeeds and returns a command string. -/
theorem torque_builder_target_support (job_name script_name : String) (nodes ppn : Nat)
    (walltime : String) (args : Option (List String)) (kwargs : List (String × String)) :
    ∀ t : TargetSystem,
      (t = .tinyfat ∨ t = .meggie →
        build_job_submit_torque job_name script_name t nodes ppn walltime args kwargs =
          .error (.unsupportedScheduler "torque" t.name)) ∧
      (¬(t = .tinyfat ∨ t = .meggie) →
        ∃ s, build_job_submit_torque job_name script_name t nodes ppn walltime args kwargs =
          .ok s) := by
  intro t
  cases t with
  | woody =>
    exact ⟨fun h => by rcases h with h | h <;> exact TargetSystem.noConfusion h,
           fun _ => ⟨_, rfl⟩⟩
  | tinygpu =>
    exact ⟨fun h => by rcases h with h | h <;> exact TargetSystem.noConfusion h,
           fun _ => ⟨_, rfl⟩⟩
  | emmy =>
    exact ⟨fun h => by rcases h with h | h <;> exact TargetSystem.noConfusion h,
           fun _ => ⟨_, rfl⟩⟩
  | tinyfat =>
    exact ⟨fun _ => rfl, fun h => absurd (Or.inl rfl) h⟩
  | meggie =>
    exact ⟨fun _ => rfl, fun h => absurd (Or.inr rfl) h⟩

/-- Witness for C2: concrete failure on `tinyfat` and concrete success on `woody`. -/
theorem torque_builder_target_support_witness :
    build_job_submit_torque "J" "job.sh" .tinyfat 1 4 "24:00:00" none [] =
      .error (.unsupportedScheduler "torque" "tinyfat") ∧
    ∃ s, build_job_submit_torque "J" "job.sh" .woody 1 4 "24:00:00" none [] = .ok s :=
  ⟨(torque_builder_target_support "J" "job.sh" 1 4 "24:00:00" none [] .tinyfat).1 (Or.inl rfl),
   (torque_builder_target_support "J" "job.sh" 1 4 "24:00:00" none [] .woody).2 (by decide)⟩

/-- C3: For target `woody` the Slurm builder fails with the
unsupported-scheduler error; for every other target it succeeds and
returns a command string (provided the partition/gres cross-check passes,
which holds in particular whenever no partition is requested). -/
theorem slurm_builder_target_support (job_name script_name : String) (nodes tpn : Nat)
    (gres : String) (partition : Option String) (walltime mail_type : String)
    (args : Option (List String)) (kwargs : List (String × String)) :
    ∀ t : TargetSystem,
      (t = .woody →
        build_job_submit_slurm job_name script_name t nodes tpn gres partition
            walltime mail_type args kwargs =
          .error (.unsupportedScheduler "slurm" "woody")) ∧
      ((∀ p, partition = some p → _check_partition_slurm p gres = .ok ()) → t ≠ .woody →
        ∃ s, build_job_submit_slurm job_name script_name t nodes tpn gres partition
            walltime mail_type args kwargs = .ok s) := by
  intro t
  cases t with
  | woody => exact ⟨fun _ => rfl, fun _ h => absurd rfl h⟩
  | tinygpu =>
    refine ⟨fun h => TargetSystem.noConfusion h, fun hp _ => ?_⟩
    cases partition with
    | none => exact ⟨_, rfl⟩
    | some p =>
      have hc := hp p rfl
      simp only [build_job_submit_slurm, hc]
      exact ⟨_, rfl⟩
  | tinyfat => exact ⟨fun h => TargetSystem.noConfusion h, fun _ _ => ⟨_, rfl⟩⟩
  | emmy => exact ⟨fun h => TargetSystem.noConfusion h, fun _ _ => ⟨_, rfl⟩⟩
  | meggie => exact ⟨fun h => TargetSystem.noConfusion h, fun _ _ => ⟨_, rfl⟩⟩

/-- Witness for C3: concrete failure on `woody` and concrete success on `emmy`. -/
theorem slurm_builder_target_support_witness :
    build_job_submit_slurm "J" "job.sh" .woody 1 4 "gpu:1" none "24:00:00" "ALL" none [] =
      .error (.unsupportedScheduler "slurm" "woody") ∧
    ∃ s, build_job_submit_slurm "J" "job.sh" .emmy 1 4 "gpu:1" none "24:00:00" "ALL" none [] =
      .ok s :=
  ⟨(slurm_builder_target_support "J" "job.sh" 1 4 "gpu:1" none "24:00:00" "ALL" none [] .woody).1
      rfl,
   (slurm_builder_target_support "J" "job.sh" 1 4 "gpu:1" none "24:00:00" "ALL" none [] .emmy).2
      (fun p h => Option.noConfusion h) (by decide)⟩

/-- C4: On `tinygpu`, partition `"a100"` with gres `"gpu:a100:1"` succeeds;
partition `"a100"` with gres `"gpu:v100:4"` fails with the
invalid-configuration error; and *every* partition other than `"a100"` and
`"v100"` never triggers the cross-check — the check returns ok and the
builder succeeds, for every gres string. -/
theorem slurm_builder_partition_gres (job_name script_name : String) (nodes tpn : Nat)
    (walltime mail_type : String) (args : Option (List String))
    (kwargs : List (String × String)) :
    (∃ s, build_job_submit_slurm job_name script_name .tinygpu nodes tpn "gpu:a100:1"
        (some "a100") walltime mail_type args kwargs = .ok s) ∧
    build_job_submit_slurm job_name script_name .tinygpu nodes tpn "gpu:v100:4"
        (some "a100") walltime mail_type args kwargs = .error .invalidConfiguration ∧
    ∀ partition : String, partition ≠ "a100" → partition ≠ "v100" → ∀ gres : String,
      _check_partition_slurm partition gres = .ok () ∧
      ∃ s, build_job_submit_slurm job_name script_name .tinygpu nodes tpn gres
        (some partition) walltime mail_type args kwargs = .ok s := by
  refine ⟨⟨_, rfl⟩, rfl, fun partition hpa hpv gres => ?_⟩
  have hc : _check_partition_slurm partition gres = .ok () := by
    unfold _check_partition_slurm
    rw [if_neg (by simp [hpa, hpv])]
  refine ⟨hc, ?_⟩
  simp only [build_job_submit_slurm, hc]
  exact ⟨_, rfl⟩

/-- Witness for C4: the no-cross-check conjunct applied at the concrete
partition `"work"` (neither `a100` nor `v100`) and gres `"gpu:1"`. -/
theorem slurm_builder_partition_gres_witness :
    _check_partition_slurm "work" "gpu:1" = .ok () ∧
    ∃ s, build_job_submit_slurm "Test_Job" "jobscript.sh" .tinygpu 1 4 "gpu:1"
      (some "work") "24:00:00" "ALL" none [] = .ok s :=
  (slurm_builder_partition_gres "Test_Job" "jobscript.sh" 1 4 "24:00:00" "ALL" none []).2.2
    "work" (by decide) (by decide) "gpu:1"

/-- C8: For target `tinygpu` the command resolver always succeeds and the
resolved command name is the input command with the fixed suffix
`".tinygpu"` appended — in particular it ends with `".tinygpu"` — for
Torque (`q`-prefixed) and Slurm (`s`-prefixed) commands alike. -/
theorem resolver_tinygpu_suffix (command : String) :
    _check_command_for_target_system command .tinygpu = .ok (command ++ ".tinygpu") ∧
    ".tinygpu".data <:+ (command ++ ".tinygpu").data := by
  constructor
  · cases hq : strStartsWith command "q" <;> cases hs : strStartsWith command "s" <;>
      simp only [_check_command_for_target_system, hq, hs] <;> rfl
  · rw [strData_append]
    exact List.suffix_append _ _

/-- C10: `check_hpc_status_file` is not read-only: on a folder with no
`hpc_status` file it creates an empty one and returns `False`; on an
existing file it leaves the content unchanged and returns `True` exactly
when the content is nonempty and parses (as a Python `int`) to `0`. -/
theorem check_hpc_status_file_spec :
    check_hpc_status_file none = (some "", .ok false) ∧
    ∀ content : String,
      (check_hpc_status_file (some content)).1 = some content ∧
      ((check_hpc_status_file (some content)).2 = .ok true ↔
        content.length > 0 ∧ pyIntParse content = some 0) := by
  refine ⟨rfl, fun content => ⟨rfl, ?_⟩⟩
  by_cases hl : content.length > 0
  · cases hp : pyIntParse content with
    | none => simp [check_hpc_status_file, hl, hp]
    | some n =>
      by_cases hn : n = 0 <;> simp [check_hpc_status_file, hl, hp, hn]
  · simp [check_hpc_status_file, hl]

/-!
Helper lemmas: `pyStrip` over appends.
-/

theorem str_append_empty (s : String) : s ++ "" = s := by
  apply strData_injective
  rw [strData_append]
  exact List.append_nil _

theorem pyStrip_append_space (s : String) : pyStrip (s ++ " ") = pyStrip s := by
  apply strData_injective
  show pyStripChars (s ++ " ").data = pyStripChars s.data
  rw [strData_append]
  show pyStripChars (s.data ++ [' ']) = pyStripChars s.data
  unfold pyStripChars
  rw [List.rdropWhile_concat_pos _ _ _ (by decide)]

/-!
Counterexamples and amended claims for the placement and filtering claims.
-/

/-- Counterexample to C5: in the Slurm builder's output the
`--export=...` fragment comes *before* the script name (the script name
is last), not after it.  At a concrete input, no occurrence of the
script name is followed by `--export=`, while `--export=` *is* followed
by the script name — the same relative placement the Torque builder uses
for its `-v` fragment. -/
theorem slurm_export_after_script_counterexample :
    build_job_submit_slurm "Test_Job" "jobscript.sh" .tinygpu 1 4 "gpu:1" none
        "24:00:00" "ALL" (some ["path1", "path2"]) [] =
      .ok "sbatch.tinygpu --job-name Test_Job --gres=gpu:1 --time=24:00:00 --mail-type=ALL --export=PARAMS=\"path1 path2\" jobscript.sh" ∧
    strContainsAfter
      "sbatch.tinygpu --job-name Test_Job --gres=gpu:1 --time=24:00:00 --mail-type=ALL --export=PARAMS=\"path1 path2\" jobscript.sh"
      "jobscript.sh" "--export=" = false ∧
    strContainsAfter
      "sbatch.tinygpu --job-name Test_Job --gres=gpu:1 --time=24:00:00 --mail-type=ALL --export=PARAMS=\"path1 path2\" jobscript.sh"
      "--export=" "jobscript.sh" = true :=
  ⟨rfl, rfl, rfl⟩

/-- Counterexample to C6: an empty string in a non-final position of the
positional list is *not* filtered out — it contributes a separator space
to the `PARAMS` value, in both encoders. -/
theorem empty_arg_not_filtered_counterexample :
    _add_arguments_torque "" (some ["", "a"]) [] = "-v PARAMS=\" a\"" ∧
    _add_arguments_torque "" (some ["a"]) [] = "-v PARAMS=\"a\"" ∧
    _add_arguments_torque "" (some ["", "a"]) [] ≠ _add_arguments_torque "" (some ["a"]) [] ∧
    _add_arguments_slurm "" (some ["", "a"]) [] = "--export=PARAMS=\" a\"" ∧
    _add_arguments_slurm "" (some ["a"]) [] = "--export=PARAMS=\"a\"" ∧
    _add_arguments_slurm "" (some ["", "a"]) [] ≠ _add_arguments_slurm "" (some ["a"]) [] :=
  ⟨rfl, rfl, by decide, rfl, rfl, by decide⟩

/-- C6 amended: only *trailing* empty strings in the positional list are
dropped: appending an empty string at the end of the list never changes
either encoder's output (the global right-strip removes the separator it
would contribute), for every command prefix and named-argument mapping. -/
theorem trailing_empty_arg_dropped (c : String) (l : List String)
    (kwargs : List (String × String)) :
    _add_arguments_torque c (some (l ++ [""])) kwargs =
      _add_arguments_torque c (some l) kwargs ∧
    _add_arguments_slurm c (some (l ++ [""])) kwargs =
      _add_arguments_slurm c (some l) kwargs := by
  constructor <;>
    simp only [_add_arguments_torque, _add_arguments_slurm, List.foldl_append, List.foldl_cons,
      List.foldl_nil, str_append_empty, pyStrip_append_space, ne_eq, reduceCtorEq,
      not_false_eq_true, or_true, if_true]

/-- Counterexample to C7: a positional list that is present but empty (or
empty after filtering) still emits the argument flag with an empty
`PARAMS` value, in both encoders and in the final Torque command. -/
theorem empty_args_flag_counterexample :
    _add_arguments_torque "" (some []) [] = "-v PARAMS=\"\"" ∧
    _add_arguments_slurm "" (some []) [] = "--export=PARAMS=\"\"" ∧
    build_job_submit_torque "Test_Job" "jobscript.sh" .woody 1 4 "24:00:00" (some []) [] =
      .ok "qsub -N Test_Job -l nodes=1:ppn=4,walltime=24:00:00 -m abe -v PARAMS=\"\" jobscript.sh" ∧
    strContains "qsub -N Test_Job -l nodes=1:ppn=4,walltime=24:00:00 -m abe -v PARAMS=\"\" jobscript.sh" "-v " = true :=
  ⟨rfl, rfl, rfl, rfl⟩

/-- C7 amended: when the positional argument list is *absent* (`None`) and
the named mapping is empty, the encoded fragment is empty — each encoder
returns its input merely stripped — and no argument flag (`-v`,
`--export=`) appears in the final command of either builder. -/
theorem no_flag_when_args_absent :
    (∀ c : String,
      _add_arguments_torque c none [] = pyStrip c ∧
      _add_arguments_slurm c none [] = pyStrip c) ∧
    build_job_submit_torque "Test_Job" "jobscript.sh" .woody 1 4 "24:00:00" none [] =
      .ok "qsub -N Test_Job -l nodes=1:ppn=4,walltime=24:00:00 -m abe jobscript.sh" ∧
    strContains "qsub -N Test_Job -l nodes=1:ppn=4,walltime=24:00:00 -m abe jobscript.sh"
      "-v" = false ∧
    build_job_submit_slurm "Test_Job" "jobscript.sh" .tinygpu 1 4 "gpu:1" none
        "24:00:00" "ALL" none [] =
      .ok "sbatch.tinygpu --job-name Test_Job --gres=gpu:1 --time=24:00:00 --mail-type=ALL jobscript.sh" ∧
    strContains "sbatch.tinygpu --job-name Test_Job --gres=gpu:1 --time=24:00:00 --mail-type=ALL jobscript.sh"
      "--export" = false :=
  ⟨fun _ => ⟨rfl, rfl⟩, rfl, rfl, rfl, rfl⟩

/-- Counterexample to C9: the encoders are not injective on structurally
distinct non-empty pairs — the positional lists `["a b"]` and
`["a", "b"]` collapse to the same fragment under both encoders.  (A
second collision, specific to Slurm: the named-only pair
`{PARAMS: "a"}` collides with the positional-only pair `["a"]`.) -/
theorem encoder_injectivity_counterexample :
    ((some ["a b"], []) : Option (List String) × List (String × String)) ≠
      (some ["a", "b"], []) ∧
    _add_arguments_torque "" (some ["a b"]) [] = _add_arguments_torque "" (some ["a", "b"]) [] ∧
    _add_arguments_slurm "" (some ["a b"]) [] = _add_arguments_slurm "" (some ["a", "b"]) [] ∧
    ((none, [("PARAMS", "a")]) : Option (List String) × List (String × String)) ≠
      (some ["a"], []) ∧
    _add_arguments_slurm "" none [("PARAMS", "a")] = _add_arguments_slurm "" (some ["a"]) [] :=
  ⟨by decide, rfl, rfl, by decide, rfl⟩

/-!
Generic list lemmas: intercalate over a single-element separator,
take/drop across a separator, injectivity across a separator, strip
behaviour, and infix preservation under stripping.
-/

theorem data_pyStrip (s : String) : (pyStrip s).data = pyStripChars s.data := rfl

theorem data_pyDropRight1 (s : String) : (pyDropRight1 s).data = s.data.dropLast := rfl

theorem data_pyDropRight2 (s : String) : (pyDropRight2 s).data = s.data.dropLast.dropLast := rfl

theorem intercalate_sep_singleton {α : Type} (sep : α) (x : List α) :
    List.intercalate [sep] [x] = x := by
  simp [List.intercalate]

theorem intercalate_sep_cons₂ {α : Type} (sep : α) (x : List α) (xs : List (List α))
    (h : xs ≠ []) :
    List.intercalate [sep] (x :: xs) = x ++ sep :: List.intercalate [sep] xs := by
  cases xs with
  | nil => exact absurd rfl h
  | cons y t =>
    simp [List.intercalate, List.intersperse_cons_cons]

theorem intercalate_sep_ne_nil {α : Type} (sep : α) (x : List α) (xs : List (List α))
    (hx : x ≠ []) :
    List.intercalate [sep] (x :: xs) ≠ [] := by
  cases xs with
  | nil => simpa [intercalate_sep_singleton]
  | cons y t =>
    rw [intercalate_sep_cons₂ _ _ _ (by simp)]
    simp [hx]

theorem flatten_map_concat {α β : Type} (f : β → List α) (sep : α) :
    ∀ (l : List β), l ≠ [] →
      (l.map (fun x => f x ++ [sep])).flatten = List.intercalate [sep] (l.map f) ++ [sep] := by
  intro l
  induction l with
  | nil => intro h; exact absurd rfl h
  | cons a t ih =>
    intro _
    cases t with
    | nil => simp [intercalate_sep_singleton]
    | cons b u =>
      have ih' := ih (by simp)
      simp only [List.map_cons, List.flatten_cons] at ih' ⊢
      rw [ih', intercalate_sep_cons₂ sep (f a) (f b :: List.map f u) (by simp)]
      simp

theorem mem_intercalate_sep {α : Type} (sep : α) :
    ∀ (xs : List (List α)) (c : α), c ∈ List.intercalate [sep] xs → c = sep ∨ ∃ x ∈ xs, c ∈ x := by
  intro xs
  induction xs with
  | nil => intro c hc; simp [List.intercalate] at hc
  | cons x t ih =>
    intro c hc
    cases t with
    | nil =>
      rw [intercalate_sep_singleton] at hc
      exact Or.inr ⟨x, List.mem_cons_self _ _, hc⟩
    | cons y u =>
      rw [intercalate_sep_cons₂ _ _ _ (by simp)] at hc
      rcases List.mem_append.mp hc with hx | hrest
      · exact Or.inr ⟨x, List.mem_cons_self _ _, hx⟩
      · rcases List.mem_cons.mp hrest with hsep | hrec
        · exact Or.inl hsep
        · rcases ih c hrec with hsep | ⟨z, hz, hcz⟩
          · exact Or.inl hsep
          · exact Or.inr ⟨z, List.mem_cons_of_mem _ hz, hcz⟩

theorem intercalate_getLast_prop {α : Type} (P : α → Prop) (sep : α) :
    ∀ (xs : List (List α)), xs ≠ [] → (∀ x ∈ xs, x ≠ []) →
      (∀ x ∈ xs, ∀ c, x.getLast? = some c → P c) →
      ∀ c, (List.intercalate [sep] xs).getLast? = some c → P c := by
  intro xs
  induction xs with
  | nil => intro h; exact absurd rfl h
  | cons x t ih =>
    intro _ hne hlast c hc
    cases t with
    | nil =>
      rw [intercalate_sep_singleton] at hc
      exact hlast x (List.mem_cons_self _ _) c hc
    | cons y u =>
      rw [intercalate_sep_cons₂ _ _ _ (by simp), List.getLast?_append] at hc
      have hJ : List.intercalate (α := α) [sep] (y :: u) ≠ [] := by
        cases u with
        | nil =>
          rw [intercalate_sep_singleton]
          exact hne y (by simp)
        | cons z v =>
          rw [intercalate_sep_cons₂ _ _ _ (by simp)]
          simp [hne y (by simp)]
      cases hJv : List.intercalate (α := α) [sep] (y :: u) with
      | nil => exact absurd hJv hJ
      | cons j js =>
        rw [hJv, List.getLast?_cons_cons,
          List.getLast?_eq_getLast (j :: js) (by simp), Option.or_some] at hc
        refine ih (by simp) (fun z hz => hne z (List.mem_cons_of_mem _ hz))
          (fun z hz => hlast z (List.mem_cons_of_mem _ hz)) c ?_
        rw [hJv, List.getLast?_eq_getLast (j :: js) (by simp)]
        exact hc

theorem takeWhile_append_sep {p : Char → Bool} {x : List Char} {sep : Char} (y : List Char)
    (hx : ∀ c ∈ x, p c = true) (hsep : p sep = false) :
    (x ++ sep :: y).takeWhile p = x := by
  induction x with
  | nil => simp [List.takeWhile_cons, hsep]
  | cons a t ih =>
    have ha := hx a (List.mem_cons_self a t)
    simp [List.takeWhile_cons, ha, ih (fun c hc => hx c (List.mem_cons_of_mem _ hc))]

theorem dropWhile_append_sep {p : Char → Bool} {x : List Char} {sep : Char} (y : List Char)
    (hx : ∀ c ∈ x, p c = true) (hsep : p sep = false) :
    (x ++ sep :: y).dropWhile p = sep :: y := by
  induction x with
  | nil => simp [List.dropWhile_cons, hsep]
  | cons a t ih =>
    have ha := hx a (List.mem_cons_self a t)
    simp [List.dropWhile_cons, ha, ih (fun c hc => hx c (List.mem_cons_of_mem _ hc))]

theorem append_sep_inj {sep : Char} :
    ∀ {x a b c : List Char}, sep ∉ x → sep ∉ a →
      x ++ sep :: b = a ++ sep :: c → x = a ∧ b = c := by
  intro x
  induction x with
  | nil =>
    intro a b c _ ha h
    cases a with
    | nil =>
      refine ⟨rfl, ?_⟩
      simpa using h
    | cons a0 t =>
      rw [List.nil_append, List.cons_append] at h
      have := (List.cons.injEq _ _ _ _).mp h
      exact absurd (this.1 ▸ List.mem_cons_self a0 t) ha
  | cons x0 t ih =>
    intro a b c hx ha h
    cases a with
    | nil =>
      rw [List.cons_append, List.nil_append] at h
      have := (List.cons.injEq _ _ _ _).mp h
      exact absurd (this.1 ▸ List.mem_cons_self x0 t) hx
    | cons a0 s =>
      rw [List.cons_append, List.cons_append] at h
      have h' := (List.cons.injEq _ _ _ _).mp h
      have ht := ih (fun hm => hx (List.mem_cons_of_mem _ hm))
        (fun hm => ha (List.mem_cons_of_mem _ hm)) h'.2
      exact ⟨by rw [h'.1, ht.1], ht.2⟩

theorem prefix_sep {sep : Char} :
    ∀ {x a b c : List Char}, sep ∉ x → sep ∉ a →
      (x ++ sep :: b) <+: (a ++ sep :: c) → x = a ∧ b <+: c := by
  intro x
  induction x with
  | nil =>
    intro a b c _ ha h
    cases a with
    | nil =>
      refine ⟨rfl, ?_⟩
      rw [List.nil_append, List.nil_append] at h
      exact (List.cons_prefix_cons.mp h).2
    | cons a0 t =>
      rw [List.nil_append, List.cons_append] at h
      have := (List.cons_prefix_cons.mp h).1
      exact absurd (this ▸ List.mem_cons_self a0 t) ha
  | cons x0 t ih =>
    intro a b c hx ha h
    cases a with
    | nil =>
      rw [List.cons_append, List.nil_append] at h
      have := (List.cons_prefix_cons.mp h).1
      exact absurd (this ▸ List.mem_cons_self x0 t) hx
    | cons a0 s =>
      rw [List.cons_append, List.cons_append] at h
      have h' := List.cons_prefix_cons.mp h
      have ht := ih (fun hm => hx (List.mem_cons_of_mem _ hm))
        (fun hm => ha (List.mem_cons_of_mem _ hm)) h'.2
      exact ⟨by rw [h'.1, ht.1], ht.2⟩

theorem pyStripChars_eq_self {l : List Char}
    (h1 : ∀ c, l.head? = some c → isPyWS c = false)
    (h2 : ∀ c, l.getLast? = some c → isPyWS c = false) :
    pyStripChars l = l := by
  unfold pyStripChars
  have hr : l.rdropWhile isPyWS = l := by
    rw [List.rdropWhile_eq_self_iff]
    intro hl
    have := h2 (l.getLast hl) (List.getLast?_eq_getLast l hl)
    simp [this]
  rw [hr]
  cases l with
  | nil => rfl
  | cons a t =>
    have := h1 a rfl
    simp [List.dropWhile_cons, this]

theorem pyStripChars_concat_space (l : List Char) :
    pyStripChars (l ++ [' ']) = pyStripChars l := by
  unfold pyStripChars
  rw [List.rdropWhile_concat_pos _ _ _ (by decide)]

theorem infix_dropWhile {p : Char → Bool} {pat : List Char} (hne : pat ≠ [])
    (hpat : ∀ c ∈ pat, p c = false) :
    ∀ {l : List Char}, pat <:+: l → pat <:+: l.dropWhile p := by
  intro l
  induction l with
  | nil =>
    intro h
    rw [List.infix_nil] at h
    exact absurd h hne
  | cons a t ih =>
    intro h
    by_cases hpa : p a = true
    · rw [List.dropWhile_cons, if_pos hpa]
      rcases List.infix_cons_iff.mp h with hpre | hinf
      · cases pat with
        | nil => exact absurd rfl hne
        | cons p0 pt =>
          have hp0 := (List.cons_prefix_cons.mp hpre).1
          have := hpat p0 (List.mem_cons_self _ _)
          rw [hp0, hpa] at this
          exact absurd this (by simp)
      · exact ih hinf
    · rw [List.dropWhile_cons, if_neg hpa]
      exact h

theorem infix_rdropWhile {p : Char → Bool} {pat : List Char} (hne : pat ≠ [])
    (hpat : ∀ c ∈ pat, p c = false) {l : List Char} (h : pat <:+: l) :
    pat <:+: l.rdropWhile p := by
  rw [List.rdropWhile]
  have h' : pat.reverse <:+: l.reverse := List.reverse_infix.mpr h
  have h'' : pat.reverse <:+: List.dropWhile p l.reverse :=
    infix_dropWhile (by simpa using hne) (fun c hc => hpat c (List.mem_reverse.mp hc)) h'
  have h3 := List.reverse_infix.mpr h''
  rwa [List.reverse_reverse] at h3

theorem infix_pyStripChars {pat : List Char} (hne : pat ≠ [])
    (hpat : ∀ c ∈ pat, isPyWS c = false) {l : List Char} (h : pat <:+: l) :
    pat <:+: pyStripChars l := by
  unfold pyStripChars
  exact infix_dropWhile hne hpat (infix_rdropWhile hne hpat h)

theorem foldl_args_data (l : List String) (s : String) :
    (l.foldl (fun acc arg => acc ++ arg ++ " ") s).data = s.data ++ argsJoinRaw l := by
  induction l generalizing s with
  | nil => simp [argsJoinRaw]
  | cons a t ih =>
    rw [List.foldl_cons, ih]
    rw [strData_append, strData_append]
    show s.data ++ a.data ++ [' '] ++ argsJoinRaw t = s.data ++ argsJoinRaw (a :: t)
    rw [show argsJoinRaw (a :: t) = a.data ++ [' '] ++ argsJoinRaw t from by
      simp [argsJoinRaw]]
    simp

theorem foldl_kwT_data (k : List (String × String)) (s : String) :
    (k.foldl (fun acc kv => acc ++ kv.1 ++ "=" ++ kv.2 ++ ",") s).data = s.data ++ kwRawT k := by
  induction k generalizing s with
  | nil => simp [kwRawT]
  | cons kv t ih =>
    rw [List.foldl_cons, ih]
    rw [strData_append, strData_append, strData_append, strData_append]
    show s.data ++ kv.1.data ++ ['='] ++ kv.2.data ++ [','] ++ kwRawT t =
      s.data ++ kwRawT (kv :: t)
    rw [show kwRawT (kv :: t) = (kwEntryT kv ++ [',']) ++ kwRawT t from by
      simp [kwRawT]]
    simp [kwEntryT]

theorem foldl_kwS_data (k : List (String × String)) (s : String) :
    (k.foldl (fun acc kv => acc ++ kv.1 ++ "=\"" ++ kv.2 ++ "\"," ) s).data =
      s.data ++ kwRawS k := by
  induction k generalizing s with
  | nil => simp [kwRawS]
  | cons kv t ih =>
    rw [List.foldl_cons, ih]
    rw [strData_append, strData_append, strData_append, strData_append]
    show s.data ++ kv.1.data ++ ['=', '"'] ++ kv.2.data ++ ['"', ','] ++ kwRawS t =
      s.data ++ kwRawS (kv :: t)
    rw [show kwRawS (kv :: t) = (kwEntryS kv ++ [',']) ++ kwRawS t from by
      simp [kwRawS]]
    simp [kwEntryS]

/-!
Facts about clean arguments and the joined forms.
-/

theorem cleanArg_parts {a : String} (h : cleanArg a = true) :
    a.data ≠ [] ∧ ∀ c ∈ a.data, cleanArgChar c = true := by
  simp only [cleanArg, Bool.and_eq_true, List.all_eq_true, beq_iff_eq, Bool.not_eq_true',
    beq_eq_false_iff_ne, ne_eq] at h
  refine ⟨fun hd => h.1 ?_, fun c hc => h.2 c hc⟩
  apply strData_injective
  rw [hd]

theorem cleanKV_parts {kv : String × String} (h : cleanKV kv = true) :
    kv.1 ≠ "PARAMS" ∧ kv.1.data ≠ [] ∧ kv.2.data ≠ [] ∧
      (∀ c ∈ kv.1.data, cleanKVChar c = true) ∧ (∀ c ∈ kv.2.data, cleanKVChar c = true) := by
  simp only [cleanKV, Bool.and_eq_true, List.all_eq_true, Bool.not_eq_true',
    beq_eq_false_iff_ne, ne_eq] at h
  obtain ⟨⟨⟨⟨h1, h2⟩, h3⟩, h4⟩, h5⟩ := h
  refine ⟨h2, fun hd => h1 ?_, fun hd => h3 ?_, fun c hc => h4 c hc, fun c hc => h5 c hc⟩
  · apply strData_injective
    rw [hd]
  · apply strData_injective
    rw [hd]

theorem cleanKVChar_parts {c : Char} (h : cleanKVChar c = true) :
    isPyWS c = false ∧ c ≠ ',' ∧ c ≠ '=' ∧ c ≠ '"' := by
  simp only [cleanKVChar, Bool.and_eq_true, Bool.not_eq_true', decide_eq_true_eq] at h
  exact ⟨h.1.1.1, h.1.1.2, h.1.2, h.2⟩

theorem cleanArgChar_parts {c : Char} (h : cleanArgChar c = true) :
    isPyWS c = false ∧ c ≠ '"' := by
  simp only [cleanArgChar, Bool.and_eq_true, Bool.not_eq_true', decide_eq_true_eq] at h
  exact ⟨h.1, h.2⟩

theorem kwEntryT_ne_nil (kv : String × String) : kwEntryT kv ≠ [] := by
  simp [kwEntryT]

theorem kwEntryS_ne_nil (kv : String × String) : kwEntryS kv ≠ [] := by
  simp [kwEntryS]

theorem argsJoin_ne_nil {l : List String} (hne : l ≠ []) (h : ∀ a ∈ l, cleanArg a = true) :
    argsJoin l ≠ [] := by
  cases l with
  | nil => exact absurd rfl hne
  | cons a t =>
    show List.intercalate [' '] ((a :: t).map String.data) ≠ []
    rw [List.map_cons]
    exact intercalate_sep_ne_nil _ _ _
      (cleanArg_parts (h a (List.mem_cons_self _ _))).1

theorem kwJoinT_ne_nil {k : List (String × String)} (hne : k ≠ []) :
    kwJoinT k ≠ [] := by
  cases k with
  | nil => exact absurd rfl hne
  | cons kv t =>
    show List.intercalate [','] ((kv :: t).map kwEntryT) ≠ []
    rw [List.map_cons]
    exact intercalate_sep_ne_nil _ _ _ (kwEntryT_ne_nil kv)

theorem kwJoinS_ne_nil {k : List (String × String)} (hne : k ≠ []) :
    kwJoinS k ≠ [] := by
  cases k with
  | nil => exact absurd rfl hne
  | cons kv t =>
    show List.intercalate [','] ((kv :: t).map kwEntryS) ≠ []
    rw [List.map_cons]
    exact intercalate_sep_ne_nil _ _ _ (kwEntryS_ne_nil kv)

theorem getLast_nonws_append {x y : List Char} (hy : y ≠ [])
    (h : ∀ c, y.getLast? = some c → isPyWS c = false) :
    ∀ c, (x ++ y).getLast? = some c → isPyWS c = false := by
  intro c hc
  rw [List.getLast?_append] at hc
  cases hYl : y.getLast? with
  | none => exact absurd (List.getLast?_eq_none_iff.mp hYl) hy
  | some d =>
    rw [hYl, Option.or_some] at hc
    injection hc with hc
    rw [← hc]
    exact h d hYl

theorem argsJoin_getLast_nonws {l : List String} (h : ∀ a ∈ l, cleanArg a = true) :
    ∀ c, (argsJoin l).getLast? = some c → isPyWS c = false := by
  cases l with
  | nil =>
    intro c hc
    simp [argsJoin, List.intercalate] at hc
  | cons a t =>
    have := intercalate_getLast_prop (fun c => isPyWS c = false) ' '
      ((a :: t).map String.data) (by simp)
      (fun x hx => by
        rcases List.mem_map.mp hx with ⟨b, hb, hbx⟩
        rw [← hbx]
        exact (cleanArg_parts (h b hb)).1)
      (fun x hx c hc => by
        rcases List.mem_map.mp hx with ⟨b, hb, hbx⟩
        rw [← hbx] at hc
        have hm := List.mem_of_getLast?_eq_some hc
        exact (cleanArgChar_parts ((cleanArg_parts (h b hb)).2 c hm)).1)
    intro c hc
    exact this c (by rw [show argsJoin (a :: t) =
      List.intercalate [' '] ((a :: t).map String.data) from rfl] at hc; exact hc)

theorem kwJoinT_getLast_nonws {k : List (String × String)}
    (h : ∀ kv ∈ k, cleanKV kv = true) :
    ∀ c, (kwJoinT k).getLast? = some c → isPyWS c = false := by
  cases k with
  | nil =>
    intro c hc
    simp [kwJoinT, List.intercalate] at hc
  | cons kv t =>
    have := intercalate_getLast_prop (fun c => isPyWS c = false) ','
      ((kv :: t).map kwEntryT) (by simp)
      (fun x hx => by
        rcases List.mem_map.mp hx with ⟨b, _, hbx⟩
        rw [← hbx]
        exact kwEntryT_ne_nil b)
      (fun x hx c hc => by
        rcases List.mem_map.mp hx with ⟨b, hb, hbx⟩
        rw [← hbx] at hc
        have hv := (cleanKV_parts (h b hb)).2.2.1
        unfold kwEntryT at hc
        have hc' := getLast_nonws_append (x := b.1.data) (y := '=' :: b.2.data)
          (by simp) ?_ c hc
        · exact hc'
        · intro d hd
          cases hvv : b.2.data with
          | nil => exact absurd hvv hv
          | cons v0 vt =>
            rw [hvv, List.getLast?_cons_cons] at hd
            have hm := List.mem_of_getLast?_eq_some hd
            have : d ∈ b.2.data := by rw [hvv]; exact hm
            exact (cleanKVChar_parts ((cleanKV_parts (h b hb)).2.2.2.2 d this)).1)
    intro c hc
    exact this c hc

theorem kwJoinS_getLast {k : List (String × String)} (hne : k ≠ []) :
    ∃ ys, kwJoinS k = ys ++ ['"'] := by
  apply List.getLast?_eq_some_iff.mp
  cases k with
  | nil => exact absurd rfl hne
  | cons kv t =>
    have := intercalate_getLast_prop (fun c => c = '"') ','
      ((kv :: t).map kwEntryS) (by simp)
      (fun x hx => by
        rcases List.mem_map.mp hx with ⟨b, _, hbx⟩
        rw [← hbx]
        exact kwEntryS_ne_nil b)
      (fun x hx c hc => by
        rcases List.mem_map.mp hx with ⟨b, _, hbx⟩
        rw [← hbx] at hc
        unfold kwEntryS at hc
        rw [show b.1.data ++ '=' :: '"' :: (b.2.data ++ ['"']) =
          (b.1.data ++ '=' :: '"' :: b.2.data) ++ ['"'] from by simp] at hc
        rw [List.getLast?_concat] at hc
        injection hc with hc
        exact hc.symm)
    cases hgl : (kwJoinS (kv :: t)).getLast? with
    | none =>
      exact absurd (List.getLast?_eq_none_iff.mp hgl) (kwJoinS_ne_nil (by simp))
    | some d =>
      rw [this d hgl]

theorem argsJoin_no_quote {l : List String} (h : ∀ a ∈ l, cleanArg a = true) :
    ∀ c ∈ argsJoin l, c ≠ '"' := by
  intro c hc
  rcases mem_intercalate_sep ' ' (l.map String.data) c hc with hsep | ⟨x, hx, hcx⟩
  · rw [hsep]; decide
  · rcases List.mem_map.mp hx with ⟨b, hb, hbx⟩
    rw [← hbx] at hcx
    exact (cleanArgChar_parts ((cleanArg_parts (h b hb)).2 c hcx)).2

theorem kwEntryT_no_comma {kv : String × String} (h : cleanKV kv = true) :
    ',' ∉ kwEntryT kv := by
  intro hc
  unfold kwEntryT at hc
  rcases List.mem_append.mp hc with h1 | h2
  · exact (cleanKVChar_parts ((cleanKV_parts h).2.2.2.1 ',' h1)).2.1 rfl
  · rcases List.mem_cons.mp h2 with he | hv
    · exact absurd he.symm (by decide)
    · exact (cleanKVChar_parts ((cleanKV_parts h).2.2.2.2 ',' hv)).2.1 rfl

theorem kwEntryS_no_comma {kv : String × String} (h : cleanKV kv = true) :
    ',' ∉ kwEntryS kv := by
  intro hc
  unfold kwEntryS at hc
  rcases List.mem_append.mp hc with h1 | h2
  · exact (cleanKVChar_parts ((cleanKV_parts h).2.2.2.1 ',' h1)).2.1 rfl
  · rcases List.mem_cons.mp h2 with he | h3
    · exact absurd he.symm (by decide)
    · rcases List.mem_cons.mp h3 with hq | h4
      · exact absurd hq.symm (by decide)
      · rcases List.mem_append.mp h4 with hv | hq2
        · exact (cleanKVChar_parts ((cleanKV_parts h).2.2.2.2 ',' hv)).2.1 rfl
        · rcases List.mem_singleton.mp hq2 with hq3
          exact absurd hq3.symm (by decide)

theorem splitOn_argsJoin {l : List String} (hne : l ≠ []) (h : ∀ a ∈ l, cleanArg a = true) :
    (argsJoin l).splitOn ' ' = l.map String.data := by
  apply List.splitOn_intercalate
  · intro e he hsp
    rcases List.mem_map.mp he with ⟨b, hb, hbe⟩
    rw [← hbe] at hsp
    exact absurd (cleanArgChar_parts ((cleanArg_parts (h b hb)).2 ' ' hsp)).1 (by decide)
  · simpa using hne

theorem splitOn_kwJoinT {k : List (String × String)} (hne : k ≠ [])
    (h : ∀ kv ∈ k, cleanKV kv = true) :
    (kwJoinT k).splitOn ',' = k.map kwEntryT := by
  apply List.splitOn_intercalate
  · intro e he hsp
    rcases List.mem_map.mp he with ⟨b, hb, hbe⟩
    rw [← hbe] at hsp
    exact kwEntryT_no_comma (h b hb) hsp
  · simpa using hne

theorem splitOn_kwJoinS {k : List (String × String)} (hne : k ≠ [])
    (h : ∀ kv ∈ k, cleanKV kv = true) :
    (kwJoinS k).splitOn ',' = k.map kwEntryS := by
  apply List.splitOn_intercalate
  · intro e he hsp
    rcases List.mem_map.mp he with ⟨b, hb, hbe⟩
    rw [← hbe] at hsp
    exact kwEntryS_no_comma (h b hb) hsp
  · simpa using hne

theorem parseEqT_entry {kv : String × String} (h : ∀ c ∈ kv.1.data, cleanKVChar c = true) :
    parseEqT (kwEntryT kv) = kv := by
  unfold parseEqT kwEntryT
  rw [takeWhile_append_sep kv.2.data
      (fun c hc => by simp [bne_iff_ne]; exact (cleanKVChar_parts (h c hc)).2.2.1) (by decide),
    dropWhile_append_sep kv.2.data
      (fun c hc => by simp [bne_iff_ne]; exact (cleanKVChar_parts (h c hc)).2.2.1) (by decide)]
  rfl

theorem parseEqS_entry {kv : String × String} (h : ∀ c ∈ kv.1.data, cleanKVChar c = true) :
    parseEqS (kwEntryS kv) = kv := by
  unfold parseEqS kwEntryS
  rw [takeWhile_append_sep ('"' :: (kv.2.data ++ ['"']))
      (fun c hc => by simp [bne_iff_ne]; exact (cleanKVChar_parts (h c hc)).2.2.1) (by decide),
    dropWhile_append_sep ('"' :: (kv.2.data ++ ['"']))
      (fun c hc => by simp [bne_iff_ne]; exact (cleanKVChar_parts (h c hc)).2.2.1) (by decide)]
  show (⟨kv.1.data⟩, (⟨(kv.2.data ++ ['"']).dropLast⟩ : String)) = kv
  rw [List.dropLast_concat]

theorem map_parseEqT {k : List (String × String)} (h : ∀ kv ∈ k, cleanKV kv = true) :
    (k.map kwEntryT).map parseEqT = k := by
  induction k with
  | nil => rfl
  | cons kv t ih =>
    rw [List.map_cons, List.map_cons,
      parseEqT_entry ((cleanKV_parts (h kv (List.mem_cons_self _ _))).2.2.2.1),
      ih (fun b hb => h b (List.mem_cons_of_mem _ hb))]

theorem map_parseEqS {k : List (String × String)} (h : ∀ kv ∈ k, cleanKV kv = true) :
    (k.map kwEntryS).map parseEqS = k := by
  induction k with
  | nil => rfl
  | cons kv t ih =>
    rw [List.map_cons, List.map_cons,
      parseEqS_entry ((cleanKV_parts (h kv (List.mem_cons_self _ _))).2.2.2.1),
      ih (fun b hb => h b (List.mem_cons_of_mem _ hb))]

theorem map_mk_data_eq (l : List String) :
    (l.map String.data).map (fun w => (⟨w⟩ : String)) = l := by
  induction l with
  | nil => rfl
  | cons a t ih => rw [List.map_cons, List.map_cons, ih]

theorem pyStripChars_pre (tail mid : List Char)
    (hmid : mid ≠ []) (hlast : ∀ c, mid.getLast? = some c → isPyWS c = false) :
    pyStripChars (('-' :: tail) ++ mid) = ('-' :: tail) ++ mid := by
  apply pyStripChars_eq_self
  · intro c hc
    rw [List.cons_append, List.head?_cons] at hc
    injection hc with hc
    rw [← hc]
    decide
  · exact getLast_nonws_append hmid hlast

theorem fragT_some_nil {l : List String} (hl : l ≠ []) (hcl : ∀ a ∈ l, cleanArg a = true) :
    (_add_arguments_torque "" (some l) []).data =
      "-v PARAMS=\"".data ++ argsJoin l ++ ['"'] := by
  have step : _add_arguments_torque "" (some l) [] =
      pyStrip (pyStrip (l.foldl (fun acc arg => acc ++ arg ++ " ")
        ("" ++ "-v " ++ "PARAMS=\"")) ++ "\" ") := by
    unfold _add_arguments_torque
    rw [if_pos (Or.inr (by simp))]
    rfl
  have hraw : argsJoinRaw l = argsJoin l ++ [' '] := flatten_map_concat String.data ' ' l hl
  rw [step, data_pyStrip, strData_append, data_pyStrip, foldl_args_data,
    show (("" ++ "-v " ++ "PARAMS=\"" : String)).data = "-v PARAMS=\"".data from rfl,
    show (("\" " : String)).data = ['"', ' '] from rfl, hraw, ← List.append_assoc,
    pyStripChars_concat_space,
    show "-v PARAMS=\"".data = '-' :: "v PARAMS=\"".data from rfl,
    pyStripChars_pre _ _ (argsJoin_ne_nil hl hcl) (argsJoin_getLast_nonws hcl),
    show (['"', ' '] : List Char) = ['"'] ++ [' '] from rfl, ← List.append_assoc,
    pyStripChars_concat_space, List.append_assoc,
    pyStripChars_pre _ _ (by simp) (fun c hc => by
      rw [List.getLast?_concat] at hc
      injection hc with hc
      rw [← hc]
      decide)]

theorem fragT_some_cons {l : List String} {k : List (String × String)} (hl : l ≠ [])
    (hcl : ∀ a ∈ l, cleanArg a = true) (hk : k ≠ []) (hck : ∀ kv ∈ k, cleanKV kv = true) :
    (_add_arguments_torque "" (some l) k).data =
      "-v PARAMS=\"".data ++ argsJoin l ++ '"' :: ' ' :: kwJoinT k := by
  obtain ⟨kv0, t0, rfl⟩ : ∃ kv0 t0, k = kv0 :: t0 := by
    cases k with
    | nil => exact absurd rfl hk
    | cons a b => exact ⟨a, b, rfl⟩
  have step : _add_arguments_torque "" (some l) (kv0 :: t0) =
      pyStrip (pyDropRight1 ((kv0 :: t0).foldl (fun acc kv => acc ++ kv.1 ++ "=" ++ kv.2 ++ ",")
        (pyStrip (l.foldl (fun acc arg => acc ++ arg ++ " ")
          ("" ++ "-v " ++ "PARAMS=\"")) ++ "\" "))) := rfl
  have hraw : argsJoinRaw l = argsJoin l ++ [' '] := flatten_map_concat String.data ' ' l hl
  have hkraw : kwRawT (kv0 :: t0) = kwJoinT (kv0 :: t0) ++ [','] :=
    flatten_map_concat kwEntryT ',' (kv0 :: t0) hk
  rw [step, data_pyStrip, data_pyDropRight1, foldl_kwT_data, strData_append, data_pyStrip,
    foldl_args_data,
    show (("" ++ "-v " ++ "PARAMS=\"" : String)).data = "-v PARAMS=\"".data from rfl,
    show (("\" " : String)).data = ['"', ' '] from rfl, hraw, ← List.append_assoc,
    pyStripChars_concat_space,
    show "-v PARAMS=\"".data = '-' :: "v PARAMS=\"".data from rfl,
    pyStripChars_pre _ _ (argsJoin_ne_nil hl hcl) (argsJoin_getLast_nonws hcl),
    hkraw, ← List.append_assoc, List.dropLast_concat, List.append_assoc, List.append_assoc,
    pyStripChars_pre _ _ (by simp)
      (getLast_nonws_append (by simp)
        (getLast_nonws_append (kwJoinT_ne_nil hk) (kwJoinT_getLast_nonws hck)))]
  simp

theorem fragT_none {k : List (String × String)} (hk : k ≠ [])
    (hck : ∀ kv ∈ k, cleanKV kv = true) :
    (_add_arguments_torque "" none k).data = "-v ".data ++ kwJoinT k := by
  obtain ⟨kv0, t0, rfl⟩ : ∃ kv0 t0, k = kv0 :: t0 := by
    cases k with
    | nil => exact absurd rfl hk
    | cons a b => exact ⟨a, b, rfl⟩
  have step : _add_arguments_torque "" none (kv0 :: t0) =
      pyStrip (pyDropRight1 ((kv0 :: t0).foldl (fun acc kv => acc ++ kv.1 ++ "=" ++ kv.2 ++ ",")
        ("" ++ "-v "))) := rfl
  have hkraw : kwRawT (kv0 :: t0) = kwJoinT (kv0 :: t0) ++ [','] :=
    flatten_map_concat kwEntryT ',' (kv0 :: t0) hk
  rw [step, data_pyStrip, data_pyDropRight1, foldl_kwT_data,
    show (("" ++ "-v " : String)).data = "-v ".data from rfl, hkraw, ← List.append_assoc,
    List.dropLast_concat,
    show "-v ".data = '-' :: "v ".data from rfl,
    pyStripChars_pre _ _ (kwJoinT_ne_nil hk) (kwJoinT_getLast_nonws hck)]

theorem fragS_some_nil {l : List String} (hl : l ≠ []) (hcl : ∀ a ∈ l, cleanArg a = true) :
    (_add_arguments_slurm "" (some l) []).data =
      "--export=PARAMS=\"".data ++ argsJoin l ++ ['"'] := by
  have step : _add_arguments_slurm "" (some l) [] =
      pyStrip (pyStrip (l.foldl (fun acc arg => acc ++ arg ++ " ")
        ("" ++ "--export=" ++ "PARAMS=\"")) ++ "\"") := by
    unfold _add_arguments_slurm
    rw [if_pos (Or.inr (by simp))]
    rfl
  have hraw : argsJoinRaw l = argsJoin l ++ [' '] := flatten_map_concat String.data ' ' l hl
  rw [step, data_pyStrip, strData_append, data_pyStrip, foldl_args_data,
    show (("" ++ "--export=" ++ "PARAMS=\"" : String)).data = "--export=PARAMS=\"".data from rfl,
    show (("\"" : String)).data = ['"'] from rfl, hraw, ← List.append_assoc,
    pyStripChars_concat_space,
    show "--export=PARAMS=\"".data = '-' :: "-export=PARAMS=\"".data from rfl,
    pyStripChars_pre _ _ (argsJoin_ne_nil hl hcl) (argsJoin_getLast_nonws hcl),
    List.append_assoc,
    pyStripChars_pre _ _ (by simp) (fun c hc => by
      rw [List.getLast?_concat] at hc
      injection hc with hc
      rw [← hc]
      decide)]

theorem fragS_some_cons {l : List String} {k : List (String × String)} (hl : l ≠ [])
    (hcl : ∀ a ∈ l, cleanArg a = true) (hk : k ≠ []) (hck : ∀ kv ∈ k, cleanKV kv = true) :
    (_add_arguments_slurm "" (some l) k).data =
      "--export=PARAMS=\"".data ++ argsJoin l ++ '"' :: ',' :: kwJoinS k := by
  obtain ⟨kv0, t0, rfl⟩ : ∃ kv0 t0, k = kv0 :: t0 := by
    cases k with
    | nil => exact absurd rfl hk
    | cons a b => exact ⟨a, b, rfl⟩
  have step : _add_arguments_slurm "" (some l) (kv0 :: t0) =
      pyStrip (pyDropRight2 ((kv0 :: t0).foldl
        (fun acc kv => acc ++ kv.1 ++ "=\"" ++ kv.2 ++ "\"," )
        (pyStrip (l.foldl (fun acc arg => acc ++ arg ++ " ")
          ("" ++ "--export=" ++ "PARAMS=\"")) ++ "\"" ++ ",")) ++ "\"") := rfl
  have hraw : argsJoinRaw l = argsJoin l ++ [' '] := flatten_map_concat String.data ' ' l hl
  have hkraw : kwRawS (kv0 :: t0) = kwJoinS (kv0 :: t0) ++ [','] :=
    flatten_map_concat kwEntryS ',' (kv0 :: t0) hk
  obtain ⟨ys, hys⟩ := kwJoinS_getLast hk
  rw [step, data_pyStrip, strData_append, data_pyDropRight2, foldl_kwS_data, strData_append,
    strData_append, data_pyStrip, foldl_args_data,
    show (("" ++ "--export=" ++ "PARAMS=\"" : String)).data = "--export=PARAMS=\"".data from rfl,
    show (("\"" : String)).data = ['"'] from rfl,
    show (("," : String)).data = [','] from rfl, hraw, ← List.append_assoc,
    pyStripChars_concat_space,
    show "--export=PARAMS=\"".data = '-' :: "-export=PARAMS=\"".data from rfl,
    pyStripChars_pre _ _ (argsJoin_ne_nil hl hcl) (argsJoin_getLast_nonws hcl),
    hkraw, ← List.append_assoc, List.dropLast_concat, hys, ← List.append_assoc,
    List.dropLast_concat, List.append_assoc, List.append_assoc, List.append_assoc,
    List.append_assoc,
    pyStripChars_pre _ _ (by simp)
      (getLast_nonws_append (by simp)
        (getLast_nonws_append (by simp)
          (getLast_nonws_append (by simp) (fun c hc => by
            rw [List.getLast?_concat] at hc
            injection hc with hc
            rw [← hc]
            decide))))]
  simp

theorem fragS_none {k : List (String × String)} (hk : k ≠ [])
    (hck : ∀ kv ∈ k, cleanKV kv = true) :
    (_add_arguments_slurm "" none k).data = "--export=".data ++ kwJoinS k := by
  obtain ⟨kv0, t0, rfl⟩ : ∃ kv0 t0, k = kv0 :: t0 := by
    cases k with
    | nil => exact absurd rfl hk
    | cons a b => exact ⟨a, b, rfl⟩
  have step : _add_arguments_slurm "" none (kv0 :: t0) =
      pyStrip (pyDropRight2 ((kv0 :: t0).foldl
        (fun acc kv => acc ++ kv.1 ++ "=\"" ++ kv.2 ++ "\"," )
        ("" ++ "--export=")) ++ "\"") := rfl
  have hkraw : kwRawS (kv0 :: t0) = kwJoinS (kv0 :: t0) ++ [','] :=
    flatten_map_concat kwEntryS ',' (kv0 :: t0) hk
  obtain ⟨ys, hys⟩ := kwJoinS_getLast hk
  rw [step, data_pyStrip, strData_append, data_pyDropRight2, foldl_kwS_data,
    show (("" ++ "--export=" : String)).data = "--export=".data from rfl,
    show (("\"" : String)).data = ['"'] from rfl, hkraw, ← List.append_assoc,
    List.dropLast_concat, hys, ← List.append_assoc, List.dropLast_concat, List.append_assoc,
    show "--export=".data = '-' :: "-export=".data from rfl,
    pyStripChars_pre _ _ (by simp) (getLast_nonws_append (by simp) (fun c hc => by
      rw [List.getLast?_singleton] at hc
      injection hc with hc
      rw [← hc]
      decide))]

theorem cleanKV_key_no_eq {kv : String × String} (h : cleanKV kv = true) :
    '=' ∉ kv.1.data := by
  intro hm
  exact (cleanKVChar_parts ((cleanKV_parts h).2.2.2.1 '=' hm)).2.2.1 rfl

theorem params_not_prefix_kwJoinT (kv : String × String) (t : List (String × String))
    (hkv : cleanKV kv = true) :
    ¬ ("PARAMS=\"".data <+: kwJoinT (kv :: t)) := by
  intro h
  have hsh : ∃ X, kwJoinT (kv :: t) = kv.1.data ++ '=' :: (kv.2.data ++ X) := by
    cases t with
    | nil =>
      refine ⟨[], ?_⟩
      show List.intercalate [','] ((kv :: []).map kwEntryT) = _
      rw [List.map_cons, List.map_nil, intercalate_sep_singleton]
      simp [kwEntryT]
    | cons b u =>
      refine ⟨',' :: kwJoinT (b :: u), ?_⟩
      show List.intercalate [','] ((kv :: b :: u).map kwEntryT) = _
      rw [List.map_cons, intercalate_sep_cons₂ _ _ _ (by simp)]
      show kwEntryT kv ++ ',' :: List.intercalate [','] ((b :: u).map kwEntryT) = _
      simp [kwEntryT, kwJoinT]
  obtain ⟨X, hX⟩ := hsh
  rw [hX, show "PARAMS=\"".data = "PARAMS".data ++ '=' :: ['"'] from rfl] at h
  have hps := prefix_sep (by decide) (cleanKV_key_no_eq hkv) h
  exact (cleanKV_parts hkv).1 (strData_injective hps.1.symm)

theorem params_not_prefix_kwJoinS (kv : String × String) (t : List (String × String))
    (hkv : cleanKV kv = true) :
    ¬ ("PARAMS=\"".data <+: kwJoinS (kv :: t)) := by
  intro h
  have hsh : ∃ X, kwJoinS (kv :: t) = kv.1.data ++ '=' :: X := by
    cases t with
    | nil =>
      refine ⟨'"' :: (kv.2.data ++ ['"']), ?_⟩
      show List.intercalate [','] ((kv :: []).map kwEntryS) = _
      rw [List.map_cons, List.map_nil, intercalate_sep_singleton]
      simp [kwEntryS]
    | cons b u =>
      refine ⟨'"' :: (kv.2.data ++ ['"']) ++ ',' :: kwJoinS (b :: u), ?_⟩
      show List.intercalate [','] ((kv :: b :: u).map kwEntryS) = _
      rw [List.map_cons, intercalate_sep_cons₂ _ _ _ (by simp)]
      show kwEntryS kv ++ ',' :: List.intercalate [','] ((b :: u).map kwEntryS) = _
      simp [kwEntryS, kwJoinS]
  obtain ⟨X, hX⟩ := hsh
  rw [hX, show "PARAMS=\"".data = "PARAMS".data ++ '=' :: ['"'] from rfl] at h
  have hps := prefix_sep (by decide) (cleanKV_key_no_eq hkv) h
  exact (cleanKV_parts hkv).1 (strData_injective hps.1.symm)

theorem cleanPair_some {l : List String} {kw : List (String × String)}
    (h : cleanPair (some l, kw) = true) :
    l ≠ [] ∧ (∀ a ∈ l, cleanArg a = true) ∧ (∀ kv ∈ kw, cleanKV kv = true) := by
  simp only [cleanPair, Bool.and_eq_true, List.all_eq_true, Bool.not_eq_true',
    List.isEmpty_eq_false] at h
  exact ⟨h.1.1, h.1.2, h.2⟩

theorem cleanPair_none {kw : List (String × String)}
    (h : cleanPair (none, kw) = true) :
    kw ≠ [] ∧ ∀ kv ∈ kw, cleanKV kv = true := by
  simp only [cleanPair, Bool.and_eq_true, List.all_eq_true, Bool.not_eq_true',
    List.isEmpty_eq_false] at h
  exact ⟨h.1, h.2⟩

theorem decodeT_encode (args : Option (List String)) (kw : List (String × String))
    (hp : cleanPair (args, kw) = true) :
    decodeT (_add_arguments_torque "" args kw).data = some (args, kw) := by
  cases args with
  | some l =>
    obtain ⟨hl, hcl, hck⟩ := cleanPair_some hp
    have hquote : ∀ c ∈ argsJoin l, (c != '"') = true := fun c hc => by
      simp [argsJoin_no_quote hcl c hc]
    cases kw with
    | nil =>
      rw [fragT_some_nil hl hcl]
      have hpre : ("-v PARAMS=\"".data.isPrefixOf
          ("-v PARAMS=\"".data ++ argsJoin l ++ ['"'])) = true := by
        simp only [List.append_assoc, List.isPrefixOf_iff_prefix]
        exact List.prefix_append _ _
      have htake : (argsJoin l ++ ['"']).takeWhile (fun c => c != '"') = argsJoin l :=
        takeWhile_append_sep [] hquote (by decide)
      have hdropw : (argsJoin l ++ ['"']).dropWhile (fun c => c != '"') = ['"'] :=
        dropWhile_append_sep [] hquote (by decide)
      unfold decodeT
      rw [if_pos hpre]
      simp only [List.append_assoc, List.drop_left, htake, hdropw,
        splitOn_argsJoin hl hcl, map_mk_data_eq]
    | cons kv t =>
      rw [fragT_some_cons hl hcl (by simp) hck]
      have hpre : ("-v PARAMS=\"".data.isPrefixOf
          ("-v PARAMS=\"".data ++ argsJoin l ++ '"' :: ' ' :: kwJoinT (kv :: t))) = true := by
        simp only [List.append_assoc, List.isPrefixOf_iff_prefix]
        exact List.prefix_append _ _
      have htake : (argsJoin l ++ '"' :: ' ' :: kwJoinT (kv :: t)).takeWhile
          (fun c => c != '"') = argsJoin l :=
        takeWhile_append_sep (' ' :: kwJoinT (kv :: t)) hquote (by decide)
      have hdropw : (argsJoin l ++ '"' :: ' ' :: kwJoinT (kv :: t)).dropWhile
          (fun c => c != '"') = '"' :: ' ' :: kwJoinT (kv :: t) :=
        dropWhile_append_sep (' ' :: kwJoinT (kv :: t)) hquote (by decide)
      unfold decodeT
      rw [if_pos hpre]
      simp only [List.append_assoc, List.drop_left, htake, hdropw,
        splitOn_argsJoin hl hcl, map_mk_data_eq,
        splitOn_kwJoinT (by simp : (kv :: t) ≠ []) hck, map_parseEqT hck]
  | none =>
    cases kw with
    | nil => simp [cleanPair] at hp
    | cons kv t =>
      obtain ⟨hk, hck⟩ := cleanPair_none hp
      rw [fragT_none (by simp) hck]
      have hpre_neg : ("-v PARAMS=\"".data.isPrefixOf
          ("-v ".data ++ kwJoinT (kv :: t))) = false := by
        rw [Bool.eq_false_iff]
        intro hcontra
        rw [List.isPrefixOf_iff_prefix] at hcontra
        rw [show "-v PARAMS=\"".data = "-v ".data ++ "PARAMS=\"".data from rfl,
          List.prefix_append_right_inj] at hcontra
        exact params_not_prefix_kwJoinT kv t (hck kv (List.mem_cons_self _ _)) hcontra
      have hpre2 : ("-v ".data.isPrefixOf ("-v ".data ++ kwJoinT (kv :: t))) = true := by
        simp only [List.isPrefixOf_iff_prefix]
        exact List.prefix_append _ _
      unfold decodeT
      rw [if_neg (by rw [hpre_neg]; exact Bool.false_ne_true), if_pos hpre2]
      simp only [List.drop_left, splitOn_kwJoinT (by simp : (kv :: t) ≠ []) hck,
        map_parseEqT hck]

theorem decodeS_encode (args : Option (List String)) (kw : List (String × String))
    (hp : cleanPair (args, kw) = true) :
    decodeS (_add_arguments_slurm "" args kw).data = some (args, kw) := by
  cases args with
  | some l =>
    obtain ⟨hl, hcl, hck⟩ := cleanPair_some hp
    have hquote : ∀ c ∈ argsJoin l, (c != '"') = true := fun c hc => by
      simp [argsJoin_no_quote hcl c hc]
    cases kw with
    | nil =>
      rw [fragS_some_nil hl hcl]
      have hpre : ("--export=PARAMS=\"".data.isPrefixOf
          ("--export=PARAMS=\"".data ++ argsJoin l ++ ['"'])) = true := by
        simp only [List.append_assoc, List.isPrefixOf_iff_prefix]
        exact List.prefix_append _ _
      have htake : (argsJoin l ++ ['"']).takeWhile (fun c => c != '"') = argsJoin l :=
        takeWhile_append_sep [] hquote (by decide)
      have hdropw : (argsJoin l ++ ['"']).dropWhile (fun c => c != '"') = ['"'] :=
        dropWhile_append_sep [] hquote (by decide)
      unfold decodeS
      rw [if_pos hpre]
      simp only [List.append_assoc, List.drop_left, htake, hdropw,
        splitOn_argsJoin hl hcl, map_mk_data_eq]
    | cons kv t =>
      rw [fragS_some_cons hl hcl (by simp) hck]
      have hpre : ("--export=PARAMS=\"".data.isPrefixOf
          ("--export=PARAMS=\"".data ++ argsJoin l ++ '"' :: ',' :: kwJoinS (kv :: t))) =
          true := by
        simp only [List.append_assoc, List.isPrefixOf_iff_prefix]
        exact List.prefix_append _ _
      have htake : (argsJoin l ++ '"' :: ',' :: kwJoinS (kv :: t)).takeWhile
          (fun c => c != '"') = argsJoin l :=
        takeWhile_append_sep (',' :: kwJoinS (kv :: t)) hquote (by decide)
      have hdropw : (argsJoin l ++ '"' :: ',' :: kwJoinS (kv :: t)).dropWhile
          (fun c => c != '"') = '"' :: ',' :: kwJoinS (kv :: t) :=
        dropWhile_append_sep (',' :: kwJoinS (kv :: t)) hquote (by decide)
      unfold decodeS
      rw [if_pos hpre]
      simp only [List.append_assoc, List.drop_left, htake, hdropw,
        splitOn_argsJoin hl hcl, map_mk_data_eq,
        splitOn_kwJoinS (by simp : (kv :: t) ≠ []) hck, map_parseEqS hck]
  | none =>
    cases kw with
    | nil => simp [cleanPair] at hp
    | cons kv t =>
      obtain ⟨hk, hck⟩ := cleanPair_none hp
      rw [fragS_none (by simp) hck]
      have hpre_neg : ("--export=PARAMS=\"".data.isPrefixOf
          ("--export=".data ++ kwJoinS (kv :: t))) = false := by
        rw [Bool.eq_false_iff]
        intro hcontra
        rw [List.isPrefixOf_iff_prefix] at hcontra
        rw [show "--export=PARAMS=\"".data = "--export=".data ++ "PARAMS=\"".data from rfl,
          List.prefix_append_right_inj] at hcontra
        exact params_not_prefix_kwJoinS kv t (hck kv (List.mem_cons_self _ _)) hcontra
      have hpre2 : ("--export=".data.isPrefixOf
          ("--export=".data ++ kwJoinS (kv :: t))) = true := by
        simp only [List.isPrefixOf_iff_prefix]
        exact List.prefix_append _ _
      unfold decodeS
      rw [if_neg (by rw [hpre_neg]; exact Bool.false_ne_true), if_pos hpre2]
      simp only [List.drop_left, splitOn_kwJoinS (by simp : (kv :: t) ≠ []) hck,
        map_parseEqS hck]

/-- C9 amended: each encoder is injective on clean non-empty pairs — every
positional argument nonempty with no whitespace/quote characters, every
named key (≠ `PARAMS`) and value nonempty with no whitespace, comma,
equals or quote characters, the positional list nonempty when present
and the mapping nonempty when the positional list is absent. -/
theorem encoders_injective_on_clean
    (p q : Option (List String) × List (String × String))
    (hp : cleanPair p = true) (hq : cleanPair q = true) :
    (_add_arguments_torque "" p.1 p.2 = _add_arguments_torque "" q.1 q.2 → p = q) ∧
    (_add_arguments_slurm "" p.1 p.2 = _add_arguments_slurm "" q.1 q.2 → p = q) := by
  constructor
  · intro h
    have h1 := decodeT_encode p.1 p.2 hp
    have h2 := decodeT_encode q.1 q.2 hq
    rw [h, h2] at h1
    have h3 := Option.some.inj h1
    rw [show p = (p.1, p.2) from rfl, show q = (q.1, q.2) from rfl]
    exact h3.symm
  · intro h
    have h1 := decodeS_encode p.1 p.2 hp
    have h2 := decodeS_encode q.1 q.2 hq
    rw [h, h2] at h1
    have h3 := Option.some.inj h1
    rw [show p = (p.1, p.2) from rfl, show q = (q.1, q.2) from rfl]
    exact h3.symm

/-- Witness for the amended C9: the injectivity theorem applied at a
concrete clean pair. -/
theorem encoders_injective_on_clean_witness :
    ((some ["a"], [("K", "v")]) : Option (List String) × List (String × String)) =
      (some ["a"], [("K", "v")]) :=
  (encoders_injective_on_clean (some ["a"], [("K", "v")]) (some ["a"], [("K", "v")])
    (by decide) (by decide)).1 rfl

theorem infix_extend_right {pat x : List Char} (y : List Char) (h : pat <:+: x) :
    pat <:+: x ++ y :=
  h.trans (List.IsPrefix.isInfix (List.prefix_append x y))

theorem export_infix_addS (c : String) (args : Option (List String))
    (kwargs : List (String × String)) (h : args ≠ none ∨ kwargs ≠ []) :
    "--export=".data <:+: (_add_arguments_slurm c args kwargs).data := by
  have hpat_ne : "--export=".data ≠ [] := by decide
  have hpat_ws : ∀ ch ∈ "--export=".data, isPyWS ch = false := by decide
  cases args with
  | some l =>
    have hcd : (c ++ "--export=" ++ "PARAMS=\"").data =
        c.data ++ "--export=".data ++ "PARAMS=\"".data := by
      rw [strData_append, strData_append]
    cases kwargs with
    | nil =>
      have step : _add_arguments_slurm c (some l) [] =
          pyStrip (pyStrip (l.foldl (fun acc arg => acc ++ arg ++ " ")
            (c ++ "--export=" ++ "PARAMS=\"")) ++ "\"") := by
        unfold _add_arguments_slurm
        rw [if_pos (Or.inr (by simp))]
        rfl
      rw [step, data_pyStrip, strData_append, data_pyStrip, foldl_args_data, hcd]
      apply infix_pyStripChars hpat_ne hpat_ws
      apply infix_extend_right
      apply infix_pyStripChars hpat_ne hpat_ws
      exact ⟨c.data, "PARAMS=\"".data ++ argsJoinRaw l, by simp⟩
    | cons kv t =>
      have step : _add_arguments_slurm c (some l) (kv :: t) =
          pyStrip (pyDropRight2 ((kv :: t).foldl
            (fun acc kv => acc ++ kv.1 ++ "=\"" ++ kv.2 ++ "\"," )
            (pyStrip (l.foldl (fun acc arg => acc ++ arg ++ " ")
              (c ++ "--export=" ++ "PARAMS=\"")) ++ "\"" ++ ",")) ++ "\"") := rfl
      have hkraw : kwRawS (kv :: t) = kwJoinS (kv :: t) ++ [','] :=
        flatten_map_concat kwEntryS ',' (kv :: t) (by simp)
      obtain ⟨ys, hys⟩ := kwJoinS_getLast (k := kv :: t) (by simp)
      rw [step, data_pyStrip, strData_append, data_pyDropRight2, foldl_kwS_data,
        strData_append, strData_append, data_pyStrip, foldl_args_data, hcd,
        show (("\"" : String)).data = ['"'] from rfl,
        show (("," : String)).data = [','] from rfl,
        hkraw, ← List.append_assoc, List.dropLast_concat, hys, ← List.append_assoc,
        List.dropLast_concat]
      apply infix_pyStripChars hpat_ne hpat_ws
      apply infix_extend_right
      apply infix_extend_right
      apply infix_extend_right
      apply infix_extend_right
      apply infix_pyStripChars hpat_ne hpat_ws
      exact ⟨c.data, "PARAMS=\"".data ++ argsJoinRaw l, by simp⟩
  | none =>
    have hk : kwargs ≠ [] := by
      rcases h with h | h
      · exact absurd rfl h
      · exact h
    obtain ⟨kv0, t0, rfl⟩ : ∃ kv0 t0, kwargs = kv0 :: t0 := by
      cases kwargs with
      | nil => exact absurd rfl hk
      | cons a b => exact ⟨a, b, rfl⟩
    have step : _add_arguments_slurm c none (kv0 :: t0) =
        pyStrip (pyDropRight2 ((kv0 :: t0).foldl
          (fun acc kv => acc ++ kv.1 ++ "=\"" ++ kv.2 ++ "\"," )
          (c ++ "--export=")) ++ "\"") := rfl
    have hkraw : kwRawS (kv0 :: t0) = kwJoinS (kv0 :: t0) ++ [','] :=
      flatten_map_concat kwEntryS ',' (kv0 :: t0) (by simp)
    obtain ⟨ys, hys⟩ := kwJoinS_getLast (k := kv0 :: t0) (by simp)
    rw [step, data_pyStrip, strData_append, data_pyDropRight2, foldl_kwS_data,
      strData_append,
      show (("\"" : String)).data = ['"'] from rfl,
      hkraw, ← List.append_assoc, List.dropLast_concat, hys, ← List.append_assoc,
      List.dropLast_concat]
    apply infix_pyStripChars hpat_ne hpat_ws
    apply infix_extend_right
    apply infix_extend_right
    exact ⟨c.data, [], by simp⟩

theorem export_infix_addT (c : String) (args : Option (List String))
    (kwargs : List (String × String)) (h : args ≠ none ∨ kwargs ≠ []) :
    "-v".data <:+: (_add_arguments_torque c args kwargs).data := by
  have hpat_ne : "-v".data ≠ [] := by decide
  have hpat_ws : ∀ ch ∈ "-v".data, isPyWS ch = false := by decide
  have hsplit : ("-v " : String).data = "-v".data ++ [' '] := rfl
  cases args with
  | some l =>
    have hcd : (c ++ "-v " ++ "PARAMS=\"").data =
        c.data ++ "-v ".data ++ "PARAMS=\"".data := by
      rw [strData_append, strData_append]
    cases kwargs with
    | nil =>
      have step : _add_arguments_torque c (some l) [] =
          pyStrip (pyStrip (l.foldl (fun acc arg => acc ++ arg ++ " ")
            (c ++ "-v " ++ "PARAMS=\"")) ++ "\" ") := by
        unfold _add_arguments_torque
        rw [if_pos (Or.inr (by simp))]
        rfl
      rw [step, data_pyStrip, strData_append, data_pyStrip, foldl_args_data, hcd, hsplit]
      apply infix_pyStripChars hpat_ne hpat_ws
      apply infix_extend_right
      apply infix_pyStripChars hpat_ne hpat_ws
      exact ⟨c.data, [' '] ++ "PARAMS=\"".data ++ argsJoinRaw l, by simp⟩
    | cons kv t =>
      have step : _add_arguments_torque c (some l) (kv :: t) =
          pyStrip (pyDropRight1 ((kv :: t).foldl
            (fun acc kv => acc ++ kv.1 ++ "=" ++ kv.2 ++ ",")
            (pyStrip (l.foldl (fun acc arg => acc ++ arg ++ " ")
              (c ++ "-v " ++ "PARAMS=\"")) ++ "\" "))) := rfl
      have hkraw : kwRawT (kv :: t) = kwJoinT (kv :: t) ++ [','] :=
        flatten_map_concat kwEntryT ',' (kv :: t) (by simp)
      rw [step, data_pyStrip, data_pyDropRight1, foldl_kwT_data, strData_append,
        data_pyStrip, foldl_args_data, hcd, hsplit,
        show (("\" " : String)).data = ['"', ' '] from rfl,
        hkraw, ← List.append_assoc, List.dropLast_concat]
      apply infix_pyStripChars hpat_ne hpat_ws
      apply infix_extend_right
      apply infix_extend_right
      apply infix_pyStripChars hpat_ne hpat_ws
      exact ⟨c.data, [' '] ++ "PARAMS=\"".data ++ argsJoinRaw l, by simp⟩
  | none =>
    have hk : kwargs ≠ [] := by
      rcases h with h | h
      · exact absurd rfl h
      · exact h
    obtain ⟨kv0, t0, rfl⟩ : ∃ kv0 t0, kwargs = kv0 :: t0 := by
      cases kwargs with
      | nil => exact absurd rfl hk
      | cons a b => exact ⟨a, b, rfl⟩
    have step : _add_arguments_torque c none (kv0 :: t0) =
        pyStrip (pyDropRight1 ((kv0 :: t0).foldl
          (fun acc kv => acc ++ kv.1 ++ "=" ++ kv.2 ++ ",")
          (c ++ "-v "))) := rfl
    have hkraw : kwRawT (kv0 :: t0) = kwJoinT (kv0 :: t0) ++ [','] :=
      flatten_map_concat kwEntryT ',' (kv0 :: t0) (by simp)
    rw [step, data_pyStrip, data_pyDropRight1, foldl_kwT_data, strData_append,
      hsplit, hkraw, ← List.append_assoc, List.dropLast_concat]
    apply infix_pyStripChars hpat_ne hpat_ws
    apply infix_extend_right
    exact ⟨c.data, [' '], by simp⟩

theorem build_slurm_ok_shape (job_name script_name : String) (t : TargetSystem)
    (nodes tpn : Nat) (gres : String) (partition : Option String) (walltime mail_type : String)
    (args : Option (List String)) (kwargs : List (String × String)) (s : String)
    (hs : build_job_submit_slurm job_name script_name t nodes tpn gres partition
      walltime mail_type args kwargs = .ok s) :
    ∃ c4 : String, s = _add_arguments_slurm c4 args kwargs ++ " " ++ script_name := by
  cases t with
  | woody => exact Except.noConfusion hs
  | tinygpu =>
    cases partition with
    | none => exact ⟨_, (Except.ok.inj hs).symm⟩
    | some p =>
      have hs' : (match (match _check_partition_slurm p gres with
          | .error e => (Except.error e : Except HpcError String)
          | .ok _ => .ok ("sbatch" ++ ".tinygpu" ++ " --job-name " ++ job_name ++ " " ++
              "--partition=" ++ p ++ " ")) with
        | .error e => (Except.error e : Except HpcError String)
        | .ok c => .ok (_add_arguments_slurm (c ++ "--gres=" ++ gres ++ " " ++ "--time=" ++
            walltime ++ " --mail-type=" ++ mail_type ++ " ") args kwargs ++ " " ++
            script_name)) = .ok s := hs
      cases hcp : _check_partition_slurm p gres with
      | error e =>
        rw [hcp] at hs'
        exact Except.noConfusion hs'
      | ok u =>
        rw [hcp] at hs'
        exact ⟨_, (Except.ok.inj hs').symm⟩
  | tinyfat => exact ⟨_, (Except.ok.inj hs).symm⟩
  | emmy => exact ⟨_, (Except.ok.inj hs).symm⟩
  | meggie => exact ⟨_, (Except.ok.inj hs).symm⟩

theorem build_torque_ok_shape (job_name script_name : String) (t : TargetSystem)
    (nodes ppn : Nat) (walltime : String) (args : Option (List String))
    (kwargs : List (String × String)) (s : String)
    (hs : build_job_submit_torque job_name script_name t nodes ppn walltime args kwargs =
      .ok s) :
    ∃ c0 : String, s = _add_arguments_torque c0 args kwargs ++ " " ++ script_name := by
  cases t with
  | woody => exact ⟨_, (Except.ok.inj hs).symm⟩
  | tinygpu => exact ⟨_, (Except.ok.inj hs).symm⟩
  | emmy => exact ⟨_, (Except.ok.inj hs).symm⟩
  | tinyfat => exact Except.noConfusion hs
  | meggie => exact Except.noConfusion hs

/-- C5 amended: whenever either builder succeeds, the command is its
argument-bearing body followed by a single space and the script name —
the script name comes last — and when any arguments were supplied the
body contains the argument flag (`--export=` for Slurm, `-v` for
Torque).  So the Slurm builder places the Argument Encoder's fragment
*before* the script name, exactly like the Torque builder. -/
theorem fragment_before_script (job_name script_name : String) (t : TargetSystem)
    (nodes ppn tpn : Nat) (gres : String) (partition : Option String)
    (walltime mail_type : String) (args : Option (List String))
    (kwargs : List (String × String)) :
    (∀ s, build_job_submit_slurm job_name script_name t nodes tpn gres partition walltime
        mail_type args kwargs = .ok s →
      ∃ body : String, s = body ++ " " ++ script_name ∧
        (args ≠ none ∨ kwargs ≠ [] → "--export=".data <:+: body.data)) ∧
    (∀ s, build_job_submit_torque job_name script_name t nodes ppn walltime args kwargs =
        .ok s →
      ∃ body : String, s = body ++ " " ++ script_name ∧
        (args ≠ none ∨ kwargs ≠ [] → "-v".data <:+: body.data)) := by
  constructor
  · intro s hs
    obtain ⟨c4, hc4⟩ := build_slurm_ok_shape job_name script_name t nodes tpn gres partition
      walltime mail_type args kwargs s hs
    exact ⟨_add_arguments_slurm c4 args kwargs, hc4,
      fun h => export_infix_addS c4 args kwargs h⟩
  · intro s hs
    obtain ⟨c0, hc0⟩ := build_torque_ok_shape job_name script_name t nodes ppn walltime
      args kwargs s hs
    exact ⟨_add_arguments_torque c0 args kwargs, hc0,
      fun h => export_infix_addT c0 args kwargs h⟩

/-- Witness for the amended C5: the placement theorem applied to a
concrete successful Slurm build. -/
theorem fragment_before_script_witness :
    ∃ body : String,
      "sbatch.tinygpu --job-name Test_Job --gres=gpu:1 --time=24:00:00 --mail-type=ALL --export=PARAMS=\"path1 path2\" jobscript.sh" =
        body ++ " " ++ "jobscript.sh" ∧
      ((some ["path1", "path2"] : Option (List String)) ≠ none ∨
        ([] : List (String × String)) ≠ [] → "--export=".data <:+: body.data) :=
  (fragment_before_script "Test_Job" "jobscript.sh" .tinygpu 1 4 4 "gpu:1" none
    "24:00:00" "ALL" (some ["path1", "path2"]) []).1 _ rfl
